import Mathlib

/-!
Shallow embedding of the PSX capital-gains tax calculator core:
the FIFO lot ledger (`FIFOQueue` in the source), the tax-rate engine
(`TaxCalculator`), and the corporate-action processor
(`CorporateActionsManager`).

Modelling conventions:
- JavaScript numbers are modelled as exact rationals (`ℚ`);
  `Math.floor` is `Rat.floor`.
- Dates are modelled as integer day numbers (days since 1970-01-01,
  which was a Thursday), so JavaScript `getDay()` is `(d + 4) % 7`
  and day-difference arithmetic is plain `Int` subtraction.
- The `holdings` object (symbol → array of lots) is modelled as a
  function `String → List Lot`; an absent key and an empty array
  behave identically in every modelled operation, as they do in the
  source.
- JavaScript exceptions are modelled with `Except`: an operation that
  throws returns `.error` and produces no successor state, matching
  the fact that the source throws before any mutation.
-/

namespace PSXTax

/-! ### Data model -/

/-- Origin of a lot: created by a BUY transaction, or injected by a
rights-issue corporate action (`originalTransaction.type` in the source). -/
inductive Origin where
  | purchase
  | rightIssue
deriving DecidableEq, Repr

/-- A purchase lot, mirroring the lot objects stored in
`FIFOQueue.holdings[symbol]`: `{ quantity, price, purchaseDate,
remainingQuantity, originalTransaction }`. -/
structure Lot where
  quantity : ℚ
  price : ℚ
  purchaseDate : ℤ
  remainingQuantity : ℚ
  origin : Origin
deriving DecidableEq, Repr

/-- A transaction record as built by `FIFOQueue.addTransaction`. -/
structure Transaction where
  id : ℕ
  ttype : String
  symbol : String
  quantity : ℚ
  price : ℚ
  tradeDate : ℤ
  settlementDate : ℤ
  totalValue : ℚ
deriving DecidableEq, Repr

/-- One entry of `lotsUsed` in a sale result. The source stores the
whole `holdingPeriod` object; only its `days` field is ever consumed
downstream, so it is modelled by `holdingDays`. -/
structure LotUsage where
  purchaseDate : ℤ
  quantity : ℚ
  costPerShare : ℚ
  costBasis : ℚ
  holdingDays : ℤ
deriving DecidableEq, Repr

/-- A realized-gain record, as produced by `FIFOQueue._processSell`
(`isSimulation := false`) or `FIFOQueue.calculateSale`
(`isSimulation := true`). -/
structure SaleResult where
  symbol : String
  quantitySold : ℚ
  sellPrice : ℚ
  saleProceeds : ℚ
  totalCostBasis : ℚ
  capitalGain : ℚ
  lotsUsed : List LotUsage
  saleDate : ℤ
  isSimulation : Bool
deriving DecidableEq, Repr

/-- The mutable state of a `FIFOQueue` instance. -/
structure Ledger where
  holdings : String → List Lot
  transactions : List Transaction
  realizedGains : List SaleResult

/-- A fresh `FIFOQueue` (constructor state). -/
def emptyLedger : Ledger :=
  { holdings := fun _ => [], transactions := [], realizedGains := [] }

instance {ε α : Type} [DecidableEq ε] [DecidableEq α] : DecidableEq (Except ε α)
  | .error a, .error b =>
    if h : a = b then .isTrue (by rw [h])
    else .isFalse (by intro hh; cases hh; exact h rfl)
  | .error _, .ok _ => .isFalse (by intro h; cases h)
  | .ok _, .error _ => .isFalse (by intro h; cases h)
  | .ok a, .ok b =>
    if h : a = b then .isTrue (by rw [h])
    else .isFalse (by intro hh; cases hh; exact h rfl)

/-! ### Settlement-date arithmetic (`calculateSettlementDate`) -/

/-- JavaScript `Date.getDay()` for a day number: 0 = Sunday … 6 = Saturday.
Day 0 (1970-01-01) was a Thursday, hence the offset 4. -/
def dayOfWeek (d : ℤ) : ℤ := (d + 4) % 7

/-- Saturday (6) or Sunday (0), the days skipped by the settlement loop. -/
def isWeekend (d : ℤ) : Bool := dayOfWeek d == 0 || dayOfWeek d == 6

/-- The next calendar day that is a business day.  The source advances one
day at a time inside a `while` loop; since at most two weekend days are
consecutive, that loop is equivalent to this bounded case split. -/
def nextBusinessDay (d : ℤ) : ℤ :=
  if isWeekend (d + 1) then (if isWeekend (d + 2) then d + 3 else d + 2) else d + 1

/-- Add `n` business days, skipping Saturday and Sunday. -/
def addBusinessDays (d : ℤ) : ℕ → ℤ
  | 0 => d
  | n + 1 => addBusinessDays (nextBusinessDay d) n

/-- `FIFOQueue.calculateSettlementDate`: trade date + 2 business days. -/
def calculateSettlementDate (tradeDate : ℤ) : ℤ :=
  addBusinessDays tradeDate 2

/-- The `days` field of `FIFOQueue.getHoldingPeriod`:
`Math.floor((sell − purchase) / 86400000)`, which on whole-day dates is
exact integer subtraction. -/
def holdingPeriodDays (purchaseDate sellDate : ℤ) : ℤ :=
  sellDate - purchaseDate

/-! ### FIFO queue operations -/

/-- JavaScript `Math.min` on two numbers. -/
def jsMin (a b : ℚ) : ℚ := if a ≤ b then a else b

/-- JavaScript `Math.max` on two numbers. -/
def jsMax (a b : ℚ) : ℚ := if a ≤ b then b else a

theorem jsMin_eq_min (a b : ℚ) : jsMin a b = min a b := (min_def a b).symm

theorem jsMax_eq_max (a b : ℚ) : jsMax a b = max a b := (max_def a b).symm

/-- Errors thrown by the sell paths of the source. -/
inductive SellError where
  | noHoldings
  | insufficient
deriving DecidableEq, Repr

/-- The `lotsUsed` entry recorded when `take` shares are consumed from
`lot` with sale settlement date `settle`. -/
def mkUsage (lot : Lot) (take : ℚ) (settle : ℤ) : LotUsage :=
  { purchaseDate := lot.purchaseDate
    quantity := take
    costPerShare := lot.price
    costBasis := take * lot.price
    holdingDays := holdingPeriodDays lot.purchaseDate settle }

/-- The consuming sweep shared by `_processSell` and `calculateSale`:
walk the queue head-to-tail while shares are still needed, take
`min(lot.remainingQuantity, remainingToSell)` from each lot (skipping
lots with nothing to give), and return the updated queue (before
pruning), the `lotsUsed` list, and the accumulated cost basis. -/
def consumeLots (settle : ℤ) : List Lot → ℚ → List Lot × List LotUsage × ℚ
  | [], _ => ([], [], 0)
  | lot :: rest, toSell =>
    if toSell > 0 then
      let take := jsMin lot.remainingQuantity toSell
      if take > 0 then
        let out := consumeLots settle rest (toSell - take)
        ({ lot with remainingQuantity := lot.remainingQuantity - take } :: out.1,
          mkUsage lot take settle :: out.2.1,
          take * lot.price + out.2.2)
      else
        let out := consumeLots settle rest toSell
        (lot :: out.1, out.2.1, out.2.2)
    else (lot :: rest, [], 0)

/-- `FIFOQueue._processBuy`: append a new lot at the tail of the symbol's
queue, with `purchaseDate` equal to the settlement date. -/
def processBuy (L : Ledger) (t : Transaction) : Ledger :=
  let lot : Lot :=
    { quantity := t.quantity
      price := t.price
      purchaseDate := t.settlementDate
      remainingQuantity := t.quantity
      origin := .purchase }
  { L with holdings := fun s => if s = t.symbol then L.holdings t.symbol ++ [lot] else L.holdings s }

/-- `FIFOQueue._processSell`: check availability, sweep the queue in FIFO
order, prune fully consumed lots, and record the realized gain.  The
source throws (so the ledger is untouched) when the symbol has no
holdings or when the requested quantity exceeds the total remaining. -/
def processSell (L : Ledger) (t : Transaction) : Except SellError (Ledger × SaleResult) :=
  let lots := L.holdings t.symbol
  if lots.isEmpty then .error .noHoldings
  else
    let totalAvailable := (lots.map (·.remainingQuantity)).sum
    if totalAvailable < t.quantity then .error .insufficient
    else
      let out := consumeLots t.settlementDate lots t.quantity
      let pruned := out.1.filter (fun l => l.remainingQuantity > 0)
      let saleProceeds := t.quantity * t.price
      let r : SaleResult :=
        { symbol := t.symbol
          quantitySold := t.quantity
          sellPrice := t.price
          saleProceeds := saleProceeds
          totalCostBasis := out.2.2
          capitalGain := saleProceeds - out.2.2
          lotsUsed := out.2.1
          saleDate := t.settlementDate
          isSimulation := false }
      .ok
        ({ L with
            holdings := fun s => if s = t.symbol then pruned else L.holdings s
            realizedGains := L.realizedGains ++ [r] },
          r)

/-- The transaction record built at the top of `addTransaction`. -/
def mkTransaction (L : Ledger) (ttype symbol : String) (q p : ℚ) (date : ℤ) : Transaction :=
  { id := L.transactions.length + 1
    ttype := ttype
    symbol := symbol
    quantity := q
    price := p
    tradeDate := date
    settlementDate := calculateSettlementDate date
    totalValue := q * p }

/-- `FIFOQueue.addTransaction`.  Note the source's SELL branch `return`s
the result of `_processSell` directly, so a SELL is never pushed onto
`this.transactions`; only BUY (and unrecognized) transactions are. -/
def addTransaction (L : Ledger) (ttype symbol : String) (q p : ℚ) (date : ℤ) :
    Except SellError (Ledger × Option SaleResult) :=
  let t := mkTransaction L ttype symbol q p date
  if ttype = "BUY" then
    let L1 := processBuy L t
    .ok ({ L1 with transactions := L1.transactions ++ [t] }, none)
  else if ttype = "SELL" then
    match processSell L t with
    | .error e => .error e
    | .ok (L1, r) => .ok (L1, some r)
  else
    .ok ({ L with transactions := L.transactions ++ [t] }, none)

/-- `FIFOQueue.calculateSale`: the what-if sale.  Identical availability
check and consuming sweep as `_processSell`, but the method contains no
assignment to ledger state: the sweep's updated queue is never stored,
no realized gain is pushed, and the result is flagged `isSimulation`. -/
def calculateSale (L : Ledger) (symbol : String) (q sellPrice : ℚ) (sellDate : ℤ) :
    Except SellError SaleResult :=
  let settle := calculateSettlementDate sellDate
  let lots := L.holdings symbol
  if lots.isEmpty then .error .noHoldings
  else
    let totalAvailable := (lots.map (·.remainingQuantity)).sum
    if totalAvailable < q then .error .insufficient
    else
      let out := consumeLots settle lots q
      let saleProceeds := q * sellPrice
      .ok
        { symbol := symbol
          quantitySold := q
          sellPrice := sellPrice
          saleProceeds := saleProceeds
          totalCostBasis := out.2.2
          capitalGain := saleProceeds - out.2.2
          lotsUsed := out.2.1
          saleDate := settle
          isSimulation := true }

/-- The app shell's `handleAddTransaction` (main application logic):
validates `quantity > 0` and `price > 0` before invoking the ledger, and
catches any ledger exception; in both failure cases the ledger is left as
it was and `false` is reported. -/
def handleAddTransaction (L : Ledger) (ttype symbol : String) (q p : ℚ) (date : ℤ) :
    Ledger × Bool :=
  if symbol = "" ∨ q ≤ 0 ∨ p ≤ 0 then (L, false)
  else
    match addTransaction L ttype symbol q p date with
    | .ok (L1, _) => (L1, true)
    | .error _ => (L, false)

/-- Apply one recorded transaction to a ledger, keeping the ledger
unchanged if the operation throws (JavaScript exception semantics). -/
def stepTransaction (L : Ledger) (ttype symbol : String) (q p : ℚ) (date : ℤ) : Ledger :=
  match addTransaction L ttype symbol q p date with
  | .ok (L1, _) => L1
  | .error _ => L

/-- Reconstruct a ledger by replaying a recorded transaction list in
order through a fresh ledger (the reconstruction route promised by the
external-interface contract). -/
def replayTransactions (ts : List Transaction) : Ledger :=
  ts.foldl (fun L t => stepTransaction L t.ttype t.symbol t.quantity t.price t.tradeDate)
    emptyLedger

/-! ### Tax rate engine (`TaxCalculator`) -/

/-- The legacy (pre-cutover) holding-period bucket rates. -/
structure LegacyRates where
  lessThan1Year : ℚ
  oneToTwoYears : ℚ
  twoToThreeYears : ℚ
  threeToFourYears : ℚ
  fourPlusYears : ℚ
deriving DecidableEq, Repr

/-- `this.legacyRates.filer` from the source. -/
def filerLegacy : LegacyRates :=
  { lessThan1Year := 15/100
    oneToTwoYears := 125/1000
    twoToThreeYears := 10/100
    threeToFourYears := 75/1000
    fourPlusYears := 0 }

/-- `this.legacyRates.nonFiler` from the source. -/
def nonFilerLegacy : LegacyRates :=
  { lessThan1Year := 15/100
    oneToTwoYears := 15/100
    twoToThreeYears := 15/100
    threeToFourYears := 15/100
    fourPlusYears := 15/100 }

/-- `this.taxRates.filer.default`. -/
def filerDefaultRate : ℚ := 15/100

/-- `this.taxRates.nonFiler.default`. -/
def nonFilerDefaultRate : ℚ := 15/100

/-- `this.newRegimeCutoff = new Date('2024-07-01')`, as a day number:
2024-07-01 is day 19905 since 1970-01-01 (a Monday). -/
def newRegimeCutoff : ℤ := 19905

/-- The mutable configuration of a `TaxCalculator` instance. -/
structure TaxCalculator where
  isFiler : Bool
deriving DecidableEq, Repr

/-- `TaxCalculator.getTaxRate`, transcribed branch for branch. -/
def getTaxRate (c : TaxCalculator) (purchaseDate : ℤ) (holdingDays : ℤ) : ℚ :=
  if purchaseDate ≥ newRegimeCutoff then
    if c.isFiler then filerDefaultRate else nonFilerDefaultRate
  else
    let rates := if c.isFiler then filerLegacy else nonFilerLegacy
    if holdingDays < 365 then rates.lessThan1Year
    else if holdingDays < 730 then rates.oneToTwoYears
    else if holdingDays < 1095 then rates.twoToThreeYears
    else if holdingDays < 1460 then rates.threeToFourYears
    else rates.fourPlusYears

/-- The rate selection exactly as the spec words it: on or after the
regime cutover the flat post-cutover rate applies whatever the holding
period and filer status; before it, the legacy bucket containing
`holdingDays` is selected using half-open intervals
`[lowerBoundDays, upperBoundDays)` over the ascending boundaries
365 / 730 / 1095 / 1460, the final bucket unbounded above,
parameterized by filer status. -/
def rateForSpec (c : TaxCalculator) (acquisitionDate holdingDays : ℤ) : ℚ :=
  if newRegimeCutoff ≤ acquisitionDate then 15/100
  else
    let rates := if c.isFiler then filerLegacy else nonFilerLegacy
    if 365 ≤ holdingDays ∧ holdingDays < 730 then rates.oneToTwoYears
    else if 730 ≤ holdingDays ∧ holdingDays < 1095 then rates.twoToThreeYears
    else if 1095 ≤ holdingDays ∧ holdingDays < 1460 then rates.threeToFourYears
    else if 1460 ≤ holdingDays then rates.fourPlusYears
    else rates.lessThan1Year

/-- One entry of the `taxByLot` breakdown in `calculateTaxForSale`. -/
structure LotTax where
  purchaseDate : ℤ
  quantity : ℚ
  costPerShare : ℚ
  sellPrice : ℚ
  gain : ℚ
  taxableGain : ℚ
  taxRate : ℚ
  tax : ℚ
  holdingDays : ℤ
deriving DecidableEq, Repr

/-- The result record of `TaxCalculator.calculateTaxForSale`. -/
structure TaxResult where
  symbol : String
  quantitySold : ℚ
  saleProceeds : ℚ
  totalCostBasis : ℚ
  capitalGain : ℚ
  taxableGain : ℚ
  totalTax : ℚ
  netProfit : ℚ
  effectiveTaxRate : ℚ
  taxByLot : List LotTax
  saleDate : ℤ
  isFiler : Bool
deriving DecidableEq, Repr

/-- The per-lot body of the loop in `calculateTaxForSale`: the lot gain
`(sellPrice − costPerShare) × quantity` is clamped at zero before the
rate is applied. -/
def lotTaxFor (c : TaxCalculator) (sellPrice : ℚ) (u : LotUsage) : LotTax :=
  let taxRate := getTaxRate c u.purchaseDate u.holdingDays
  let lotGain := (sellPrice - u.costPerShare) * u.quantity
  let taxableGain := jsMax 0 lotGain
  { purchaseDate := u.purchaseDate
    quantity := u.quantity
    costPerShare := u.costPerShare
    sellPrice := sellPrice
    gain := lotGain
    taxableGain := taxableGain
    taxRate := taxRate
    tax := taxableGain * taxRate
    holdingDays := u.holdingDays }

/-- `TaxCalculator.calculateTaxForSale`. -/
def calculateTaxForSale (c : TaxCalculator) (s : SaleResult) : TaxResult :=
  let taxByLot := s.lotsUsed.map (lotTaxFor c s.sellPrice)
  let totalTax := (taxByLot.map (·.tax)).sum
  { symbol := s.symbol
    quantitySold := s.quantitySold
    saleProceeds := s.saleProceeds
    totalCostBasis := s.totalCostBasis
    capitalGain := s.capitalGain
    taxableGain := jsMax 0 s.capitalGain
    totalTax := totalTax
    netProfit := s.capitalGain - totalTax
    effectiveTaxRate := if s.capitalGain > 0 then totalTax / s.capitalGain else 0
    taxByLot := taxByLot
    saleDate := s.saleDate
    isFiler := c.isFiler }

/-! ### Corporate action processor (`CorporateActionsManager`) -/

/-- Errors thrown by `_applyBonusShares` / `_applyRightIssue`. -/
inductive CAError where
  | invalidRatio
  | invalidPrice
  | noLots
  | noEligibleLots
  | ratioTooSmall
deriving DecidableEq, Repr

/-- Total remaining shares across the lots purchased strictly before the
ex-date (the eligibility sweep shared by both corporate actions). -/
def eligibleShares (lots : List Lot) (exDate : ℤ) : ℚ :=
  ((lots.filter (fun l => decide (l.purchaseDate < exDate))).map (·.remainingQuantity)).sum

/-- The per-lot adjustment loop of `_applyBonusShares`: for an eligible
lot, `bonusForThisLot = Math.floor(remainingQuantity × ratio)` is added
to `remainingQuantity` only (the `quantity` field is not touched), and
`price` is rescaled from the old remaining quantity. -/
def applyBonusToLot (bonusRatio : ℚ) (exDate : ℤ) (lot : Lot) : Lot :=
  if lot.purchaseDate < exDate then
    let oldQuantity := lot.remainingQuantity
    let bonusForThisLot : ℚ := (Rat.floor (oldQuantity * bonusRatio) : ℤ)
    let newRemaining := oldQuantity + bonusForThisLot
    { lot with
        remainingQuantity := newRemaining
        price := oldQuantity * lot.price / newRemaining }
  else lot

/-- `CorporateActionsManager._applyBonusShares`, acting on one symbol's
queue, with the ratio already parsed to a rational. -/
def applyBonusShares (lots : List Lot) (bonusRatio : ℚ) (exDate : ℤ) :
    Except CAError (List Lot) :=
  if bonusRatio ≤ 0 ∨ bonusRatio > 1 then .error .invalidRatio
  else if lots.isEmpty then .error .noLots
  else if eligibleShares lots exDate = 0 then .error .noEligibleLots
  else if Rat.floor (eligibleShares lots exDate * bonusRatio) = 0 then .error .ratioTooSmall
  else .ok (lots.map (applyBonusToLot bonusRatio exDate))

/-- The per-lot loop of `_reverseBonusShares`: the pre-bonus quantity is
recomputed as `Math.floor(currentQuantity / (1 + ratio))` and the price
rescaled inversely. -/
def reverseBonusToLot (bonusRatio : ℚ) (exDate : ℤ) (lot : Lot) : Lot :=
  if lot.purchaseDate < exDate then
    let currentQuantity := lot.remainingQuantity
    let originalQuantity : ℚ := (Rat.floor (currentQuantity / (1 + bonusRatio)) : ℤ)
    { lot with
        remainingQuantity := originalQuantity
        price := currentQuantity * lot.price / originalQuantity }
  else lot

/-- `CorporateActionsManager._reverseBonusShares`, acting on one symbol's
queue. -/
def reverseBonusShares (lots : List Lot) (bonusRatio : ℚ) (exDate : ℤ) : List Lot :=
  lots.map (reverseBonusToLot bonusRatio exDate)

/-- The ratio argument of a rights issue: either `"n:m"` colon syntax or
a plain decimal. -/
inductive RightRatioArg where
  | colonSyntax (numer denom : ℚ)
  | decimal (value : ℚ)
deriving DecidableEq, Repr

/-- The ratio parsing at the top of `_applyRightIssue`:
`"n:m"` becomes `n / m`, a decimal is taken as-is. -/
def parseRightRatio : RightRatioArg → ℚ
  | .colonSyntax n m => n / m
  | .decimal x => x

/-- `CorporateActionsManager._applyRightIssue`, acting on one symbol's
queue: validates the ratio and the issue price, computes the entitled
shares as `Math.floor(eligibleShares × ratio)`, and appends exactly one
new lot at the tail, dated at the subscription date (or ex-date + 30
days when absent) and flagged as a rights issue. -/
def applyRightIssue (lots : List Lot) (ratio : RightRatioArg) (price : ℚ) (exDate : ℤ)
    (subscriptionDate : Option ℤ) : Except CAError (List Lot) :=
  let rightRatio := parseRightRatio ratio
  if rightRatio ≤ 0 then .error .invalidRatio
  else if price ≤ 0 then .error .invalidPrice
  else if lots.isEmpty then .error .noLots
  else if eligibleShares lots exDate = 0 then .error .noEligibleLots
  else
    let rightSharesEntitled := Rat.floor (eligibleShares lots exDate * rightRatio)
    if rightSharesEntitled = 0 then .error .ratioTooSmall
    else
      let purchaseDate := subscriptionDate.getD (exDate + 30)
      .ok
        (lots ++
          [{ quantity := (rightSharesEntitled : ℤ)
             price := price
             purchaseDate := purchaseDate
             remainingQuantity := (rightSharesEntitled : ℤ)
             origin := .rightIssue }])

/-- A concrete two-lot ledger used to instantiate the universally
quantified theorems: 10 shares @ 5 settled on day 4 and 10 shares @ 7
settled on day 11, both for symbol `"A"`. -/
def fifoDemoLedger : Ledger :=
  { holdings := fun s =>
      if s = "A" then
        [{ quantity := 10, price := 5, purchaseDate := 4, remainingQuantity := 10,
           origin := .purchase },
         { quantity := 10, price := 7, purchaseDate := 11, remainingQuantity := 10,
           origin := .purchase }]
      else []
    transactions := []
    realizedGains := [] }

/-! ### Helper lemmas -/

theorem ratFloor_eq_floor (q : ℚ) : Rat.floor q = ⌊q⌋ :=
  le_antisymm (Int.le_floor.mpr (Rat.le_floor.mp le_rfl)) (Rat.le_floor.mpr (Int.floor_le q))

theorem ratFloor_eval (q : ℚ) (n : ℤ) (h1 : (n : ℚ) ≤ q) (h2 : q < n + 1) :
    Rat.floor q = n := by
  rw [ratFloor_eq_floor]; exact Int.floor_eq_iff.mpr ⟨h1, h2⟩

theorem ratFloor_nonneg (q : ℚ) (h : 0 ≤ q) : 0 ≤ Rat.floor q := by
  rw [ratFloor_eq_floor]; exact Int.floor_nonneg.mpr h

theorem sell_ne_buy : ("SELL" : String) ≠ "BUY" := by decide

theorem jsMax_zero_nonneg (g : ℚ) : 0 ≤ jsMax 0 g := by
  unfold jsMax; split_ifs with h
  · exact h
  · exact le_refl 0

/-! ### Tax rate engine: spec-side rate table and agreement (C3) -/

/-- C3: `getTaxRate` returns the flat post-cutover rate for every
acquisition date on or after July 1, 2024 regardless of holding days,
and otherwise selects the legacy bucket containing `holdingDays` using
half-open intervals over ascending boundaries 365/730/1095/1460 days
with the final bucket unbounded above, parameterized by filer status —
i.e., it agrees everywhere with the spec-worded `rateForSpec`. -/
theorem getTaxRate_eq_rateForSpec (c : TaxCalculator) (purchaseDate holdingDays : ℤ) :
    getTaxRate c purchaseDate holdingDays = rateForSpec c purchaseDate holdingDays := by
  rcases c with ⟨f⟩
  cases f <;>
    simp only [getTaxRate, rateForSpec, ge_iff_le, if_true, if_false] <;>
    split_ifs <;> first | rfl | omega

/-! ### No negative tax (C4) -/

theorem getTaxRate_nonneg (c : TaxCalculator) (purchaseDate holdingDays : ℤ) :
    0 ≤ getTaxRate c purchaseDate holdingDays := by
  rcases c with ⟨f⟩
  cases f <;>
    simp only [getTaxRate] <;>
    split_ifs <;>
    norm_num [filerLegacy, nonFilerLegacy, filerDefaultRate, nonFilerDefaultRate]

/-- C4: `calculateTaxForSale` computes each consumed lot's tax as
`max(0, (saleUnitPrice − costPerShare) × quantity) × rate` and sums
them into `totalTax`, which is therefore never negative: each per-lot
loss is clamped to zero before the rate multiplication. -/
theorem calculateTaxForSale_totalTax (c : TaxCalculator) (s : SaleResult) :
    (calculateTaxForSale c s).totalTax =
      (s.lotsUsed.map (fun u =>
        jsMax 0 ((s.sellPrice - u.costPerShare) * u.quantity) *
          getTaxRate c u.purchaseDate u.holdingDays)).sum ∧
    0 ≤ (calculateTaxForSale c s).totalTax := by
  constructor
  · simp only [calculateTaxForSale, List.map_map]
    congr 1
  · simp only [calculateTaxForSale, List.map_map]
    refine List.sum_nonneg ?_
    intro x hx
    simp only [List.mem_map, Function.comp] at hx
    obtain ⟨u, _, rfl⟩ := hx
    exact mul_nonneg (jsMax_zero_nonneg _) (getTaxRate_nonneg _ _ _)

/-! ### FIFO consumption characterization (C1) -/

theorem consumeLots_of_nonpos (settle : ℤ) (lots : List Lot) (t : ℚ) (ht : t ≤ 0) :
    consumeLots settle lots t = (lots, [], 0) := by
  cases lots with
  | nil => rfl
  | cons l rest =>
    rw [consumeLots, if_neg (not_lt.mpr ht)]

theorem consumeLots_cons_pos (settle : ℤ) (l : Lot) (rest : List Lot) (q : ℚ)
    (hq : 0 < q) (hl : 0 < l.remainingQuantity) :
    consumeLots settle (l :: rest) q =
      ({ l with remainingQuantity := l.remainingQuantity - jsMin l.remainingQuantity q } ::
          (consumeLots settle rest (q - jsMin l.remainingQuantity q)).1,
        mkUsage l (jsMin l.remainingQuantity q) settle ::
          (consumeLots settle rest (q - jsMin l.remainingQuantity q)).2.1,
        jsMin l.remainingQuantity q * l.price +
          (consumeLots settle rest (q - jsMin l.remainingQuantity q)).2.2) := by
  have htake : 0 < jsMin l.remainingQuantity q := by
    unfold jsMin; split_ifs <;> assumption
  conv_lhs => rw [consumeLots]
  rw [if_pos hq, if_pos htake]

/-- Full characterization of the consuming sweep: under the queue
invariant (all lots have positive remaining quantity) and availability,
the touched lots form a prefix of the queue; every lot before the last
touched one is exhausted; the last touched lot gives
`min(remaining, stillNeeded)`; the consumed quantities add to the
request; the cost basis is the sum over the recorded usages; and the
updated queue zeroes the exhausted prefix and decrements the last lot. -/
theorem consumeLots_spec (settle : ℤ) :
    ∀ (lots : List Lot) (q : ℚ),
      (∀ l ∈ lots, 0 < l.remainingQuantity) → 0 < q →
      q ≤ (lots.map (·.remainingQuantity)).sum →
      ∃ full lst rest t,
        lots = full ++ lst :: rest ∧
        0 < t ∧ t ≤ lst.remainingQuantity ∧
        t = min lst.remainingQuantity (q - (full.map (·.remainingQuantity)).sum) ∧
        (full.map (·.remainingQuantity)).sum + t = q ∧
        (consumeLots settle lots q).2.1 =
          full.map (fun l => mkUsage l l.remainingQuantity settle) ++ [mkUsage lst t settle] ∧
        (consumeLots settle lots q).2.2 =
          (((consumeLots settle lots q).2.1).map (fun u => u.quantity * u.costPerShare)).sum ∧
        (consumeLots settle lots q).1 =
          full.map (fun l => { l with remainingQuantity := 0 }) ++
            ({ lst with remainingQuantity := lst.remainingQuantity - t } :: rest) := by
  intro lots
  induction lots with
  | nil =>
    intro q _ hq hle
    simp only [List.map_nil, List.sum_nil] at hle
    exact absurd (lt_of_lt_of_le hq hle) (lt_irrefl 0)
  | cons l rest ih =>
    intro q hpos hq hle
    have hl : 0 < l.remainingQuantity := hpos l (List.mem_cons_self l rest)
    rw [consumeLots_cons_pos settle l rest q hq hl]
    by_cases hcase : q ≤ l.remainingQuantity
    · have htake : jsMin l.remainingQuantity q = q := by
        unfold jsMin
        split_ifs with h
        · exact le_antisymm h hcase
        · rfl
      rw [htake, sub_self, consumeLots_of_nonpos settle rest 0 le_rfl]
      refine ⟨[], l, rest, q, by simp, hq, hcase, ?_, by simp, by simp [mkUsage], ?_, by simp⟩
      · simp [min_eq_right hcase]
      · simp [mkUsage]
    · push_neg at hcase
      have htake : jsMin l.remainingQuantity q = l.remainingQuantity := by
        unfold jsMin
        rw [if_pos (le_of_lt hcase)]
      rw [htake]
      have hq' : 0 < q - l.remainingQuantity := by linarith
      have hle' : q - l.remainingQuantity ≤ (rest.map (·.remainingQuantity)).sum := by
        simp only [List.map_cons, List.sum_cons] at hle
        linarith
      obtain ⟨full', lst, rest', t, hsplit, ht0, htle, htmin, hsum, husg, hcb, hlots⟩ :=
        ih (q - l.remainingQuantity) (fun x hx => hpos x (List.mem_cons_of_mem l hx)) hq' hle'
      refine ⟨l :: full', lst, rest', t, by rw [List.cons_append, hsplit],
        ht0, htle, ?_, ?_, ?_, ?_, ?_⟩
      · rw [htmin]
        congr 1
        simp only [List.map_cons, List.sum_cons]
        ring
      · simp only [List.map_cons, List.sum_cons]
        linarith
      · simp only [husg, List.map_cons, List.cons_append]
      · simp only [husg, hcb, List.map_cons, List.sum_cons, mkUsage]
      · simp only [hlots, List.map_cons, List.cons_append, sub_self]

theorem addTransaction_sell_eq (L : Ledger) (symbol : String) (q p : ℚ) (d : ℤ) :
    addTransaction L "SELL" symbol q p d =
      match processSell L (mkTransaction L "SELL" symbol q p d) with
      | .error e => .error e
      | .ok (L1, r) => .ok (L1, some r) := by
  simp only [addTransaction]
  rw [if_neg sell_ne_buy, if_pos trivial]

/-- C1: a sell whose quantity is covered by the symbol's total remaining
shares succeeds and consumes lots strictly from the head of the queue
toward the tail: the touched lots are a prefix of the queue, every
touched lot except the last is exhausted, the last gives
`min(remaining, stillNeeded)`, the consumed quantities sum to the
request, `totalCostBasis` is Σ(consumedQty × unitCost) over the touched
lots, each recorded entry's `holdingDays` is the day difference between
the sale settlement date and the lot's acquisition date, and lots whose
remaining quantity reached zero are pruned from the queue. -/
theorem processSell_fifo (L : Ledger) (symbol : String) (q p : ℚ) (d : ℤ)
    (hpos : ∀ l ∈ L.holdings symbol, 0 < l.remainingQuantity)
    (hq : 0 < q)
    (havail : q ≤ ((L.holdings symbol).map (·.remainingQuantity)).sum) :
    ∃ L' r full lst rest t,
      addTransaction L "SELL" symbol q p d = .ok (L', some r) ∧
      L.holdings symbol = full ++ lst :: rest ∧
      0 < t ∧ t ≤ lst.remainingQuantity ∧
      t = min lst.remainingQuantity (q - (full.map (·.remainingQuantity)).sum) ∧
      (full.map (·.remainingQuantity)).sum + t = q ∧
      r.lotsUsed =
        full.map (fun l => mkUsage l l.remainingQuantity (calculateSettlementDate d)) ++
          [mkUsage lst t (calculateSettlementDate d)] ∧
      (∀ u ∈ r.lotsUsed, u.holdingDays = calculateSettlementDate d - u.purchaseDate) ∧
      r.totalCostBasis = (r.lotsUsed.map (fun u => u.quantity * u.costPerShare)).sum ∧
      r.quantitySold = q ∧ r.sellPrice = p ∧ r.saleProceeds = q * p ∧
      r.capitalGain = q * p - r.totalCostBasis ∧
      L'.holdings symbol =
        (if t < lst.remainingQuantity
          then [{ lst with remainingQuantity := lst.remainingQuantity - t }] else []) ++ rest ∧
      (∀ s, s ≠ symbol → L'.holdings s = L.holdings s) ∧
      L'.realizedGains = L.realizedGains ++ [r] := by
  obtain ⟨full, lst, rest, t, hsplit, ht0, htle, htmin, hsum, husg, hcb, hlots⟩ :=
    consumeLots_spec (calculateSettlementDate d) (L.holdings symbol) q hpos hq havail
  have hne : (L.holdings symbol).isEmpty = false := by
    rw [hsplit]; cases full <;> rfl
  have hnlt : ¬ ((L.holdings symbol).map (·.remainingQuantity)).sum < q := not_lt.mpr havail
  set settle := calculateSettlementDate d with hsettle
  set out := consumeLots settle (L.holdings symbol) q with hout
  set r : SaleResult :=
    { symbol := symbol, quantitySold := q, sellPrice := p, saleProceeds := q * p,
      totalCostBasis := out.2.2, capitalGain := q * p - out.2.2,
      lotsUsed := out.2.1, saleDate := settle, isSimulation := false } with hr
  set pruned := out.1.filter (fun l => l.remainingQuantity > 0) with hpruned
  set L' : Ledger :=
    { L with
        holdings := fun s => if s = symbol then pruned else L.holdings s
        realizedGains := L.realizedGains ++ [r] } with hL'
  have hps : processSell L (mkTransaction L "SELL" symbol q p d) = .ok (L', r) := by
    simp only [processSell, mkTransaction, hne, Bool.false_eq_true, if_false, hnlt]
  have hfilter : pruned =
      (if t < lst.remainingQuantity
        then [{ lst with remainingQuantity := lst.remainingQuantity - t }] else []) ++ rest := by
    rw [hpruned, hlots, List.filter_append]
    have h1 : (full.map (fun l => { l with remainingQuantity := 0 })).filter
        (fun l => l.remainingQuantity > 0) = [] := by
      refine List.filter_eq_nil_iff.mpr ?_
      intro x hx
      simp only [List.mem_map] at hx
      obtain ⟨l, _, rfl⟩ := hx
      simp
    have h2 : rest.filter (fun l => l.remainingQuantity > 0) = rest := by
      refine List.filter_eq_self.mpr ?_
      intro x hx
      have : x ∈ L.holdings symbol := by
        rw [hsplit]
        exact List.mem_append_right _ (List.mem_cons_of_mem _ hx)
      simpa using hpos x this
    rw [h1, List.filter_cons, h2]
    by_cases hc : t < lst.remainingQuantity
    · rw [if_pos (by simpa [sub_pos] using hc), if_pos hc]
      rfl
    · rw [if_neg (by simpa [sub_pos] using hc), if_neg hc]
  refine ⟨L', r, full, lst, rest, t, ?_, hsplit, ht0, htle, htmin, hsum, husg, ?_, hcb,
    rfl, rfl, rfl, rfl, ?_, ?_, rfl⟩
  · rw [addTransaction_sell_eq, hps]
  · intro u hu
    rw [hr] at hu
    simp only at hu
    rw [husg] at hu
    rcases List.mem_append.mp hu with h | h
    · simp only [List.mem_map] at h
      obtain ⟨l, _, rfl⟩ := h
      simp [mkUsage, holdingPeriodDays]
    · simp only [List.mem_singleton] at h
      subst h
      simp [mkUsage, holdingPeriodDays]
  · show (if symbol = symbol then pruned else L.holdings symbol) = _
    rw [if_pos rfl, hfilter]
  · intro s hs
    show (if s = symbol then pruned else L.holdings s) = L.holdings s
    rw [if_neg hs]

theorem processSell_fifo_witness :
    (∀ l ∈ fifoDemoLedger.holdings "A", 0 < l.remainingQuantity) ∧
    (0 : ℚ) < 12 ∧
    (12 : ℚ) ≤ ((fifoDemoLedger.holdings "A").map (·.remainingQuantity)).sum ∧
    ∃ L' r full lst rest t,
      addTransaction fifoDemoLedger "SELL" "A" 12 9 7 = .ok (L', some r) ∧
      fifoDemoLedger.holdings "A" = full ++ lst :: rest ∧
      0 < t ∧ t ≤ lst.remainingQuantity ∧
      t = min lst.remainingQuantity (12 - (full.map (·.remainingQuantity)).sum) ∧
      (full.map (·.remainingQuantity)).sum + t = 12 ∧
      r.lotsUsed =
        full.map (fun l => mkUsage l l.remainingQuantity (calculateSettlementDate 7)) ++
          [mkUsage lst t (calculateSettlementDate 7)] ∧
      (∀ u ∈ r.lotsUsed, u.holdingDays = calculateSettlementDate 7 - u.purchaseDate) ∧
      r.totalCostBasis = (r.lotsUsed.map (fun u => u.quantity * u.costPerShare)).sum ∧
      r.quantitySold = 12 ∧ r.sellPrice = 9 ∧ r.saleProceeds = 12 * 9 ∧
      r.capitalGain = 12 * 9 - r.totalCostBasis ∧
      L'.holdings "A" =
        (if t < lst.remainingQuantity
          then [{ lst with remainingQuantity := lst.remainingQuantity - t }] else []) ++ rest ∧
      (∀ s, s ≠ "A" → L'.holdings s = fifoDemoLedger.holdings s) ∧
      L'.realizedGains = fifoDemoLedger.realizedGains ++ [r] := by
  have hpos : ∀ l ∈ fifoDemoLedger.holdings "A", 0 < l.remainingQuantity := by
    intro l hl
    simp only [fifoDemoLedger, if_pos, List.mem_cons, List.not_mem_nil, or_false] at hl
    rcases hl with rfl | rfl <;> norm_num
  have havail : (12 : ℚ) ≤ ((fifoDemoLedger.holdings "A").map (·.remainingQuantity)).sum := by
    norm_num [fifoDemoLedger]
  exact ⟨hpos, by norm_num, havail,
    processSell_fifo fifoDemoLedger "A" 12 9 7 hpos (by norm_num) havail⟩

/-- C2: a sell (and likewise a simulate-sell) requesting more than the
symbol's total remaining shares fails with an error, and the ledger's
pre-operation state is fully preserved: the availability check precedes
the consuming sweep, so no partial consumption is committed (the
application-layer wrapper returns the untouched ledger). -/
theorem sell_insufficient_preserves_state (L : Ledger) (symbol : String) (q p : ℚ) (d d2 : ℤ)
    (h : ((L.holdings symbol).map (·.remainingQuantity)).sum < q) :
    (∃ e, addTransaction L "SELL" symbol q p d = .error e) ∧
    (∃ e, calculateSale L symbol q p d2 = .error e) ∧
    ((L.holdings symbol).isEmpty = false →
      addTransaction L "SELL" symbol q p d = .error .insufficient ∧
      calculateSale L symbol q p d2 = .error .insufficient) ∧
    handleAddTransaction L "SELL" symbol q p d = (L, false) := by
  have h1 : ∃ e, addTransaction L "SELL" symbol q p d = .error e := by
    rw [addTransaction_sell_eq]
    by_cases hne : (L.holdings symbol).isEmpty = true
    · exact ⟨.noHoldings, by simp only [processSell, mkTransaction, hne, if_true]⟩
    · have hne' := eq_false_of_ne_true hne
      exact ⟨.insufficient, by
        simp only [processSell, mkTransaction, hne', Bool.false_eq_true, if_false, if_pos h]⟩
  have h2 : ∃ e, calculateSale L symbol q p d2 = .error e := by
    by_cases hne : (L.holdings symbol).isEmpty = true
    · exact ⟨.noHoldings, by simp only [calculateSale, hne, if_true]⟩
    · have hne' := eq_false_of_ne_true hne
      exact ⟨.insufficient, by
        simp only [calculateSale, hne', Bool.false_eq_true, if_false, if_pos h]⟩
  refine ⟨h1, h2, ?_, ?_⟩
  · intro hne'
    constructor
    · rw [addTransaction_sell_eq]
      simp only [processSell, mkTransaction, hne', Bool.false_eq_true, if_false, if_pos h]
    · simp only [calculateSale, hne', Bool.false_eq_true, if_false, if_pos h]
  unfold handleAddTransaction
  by_cases hg : symbol = "" ∨ q ≤ 0 ∨ p ≤ 0
  · rw [if_pos hg]
  · rw [if_neg hg]
    obtain ⟨e, he⟩ := h1
    rw [he]

theorem sell_insufficient_preserves_state_witness :
    ((fifoDemoLedger.holdings "A").map (·.remainingQuantity)).sum < (25 : ℚ) ∧
    ((∃ e, addTransaction fifoDemoLedger "SELL" "A" 25 9 7 = .error e) ∧
     (∃ e, calculateSale fifoDemoLedger "A" 25 9 7 = .error e) ∧
     ((fifoDemoLedger.holdings "A").isEmpty = false →
       addTransaction fifoDemoLedger "SELL" "A" 25 9 7 = .error .insufficient ∧
       calculateSale fifoDemoLedger "A" 25 9 7 = .error .insufficient) ∧
     handleAddTransaction fifoDemoLedger "SELL" "A" 25 9 7 = (fifoDemoLedger, false)) :=
  ⟨by norm_num [fifoDemoLedger],
   sell_insufficient_preserves_state fifoDemoLedger "A" 25 9 7 7
     (by norm_num [fifoDemoLedger])⟩

/-- C8: `calculateSale` never touches the committed ledger (it is a pure
function of it: the source method contains no assignment to ledger
state), it fails exactly when a committed sell of the same arguments
would fail, and on success its result carries the same consumption
outcome as the committed sell would produce — same fields except the
`isSimulation` flag — while the committed sell additionally appends the
realized gain. -/
theorem calculateSale_simulates_sell (L : Ledger) (symbol : String) (q p : ℚ) (d : ℤ) :
    (∀ e, calculateSale L symbol q p d = .error e ↔
        addTransaction L "SELL" symbol q p d = .error e) ∧
    (∀ r, calculateSale L symbol q p d = .ok r →
      r.isSimulation = true ∧
      ∃ L', addTransaction L "SELL" symbol q p d =
          .ok (L', some { r with isSimulation := false }) ∧
        L'.transactions = L.transactions ∧
        L'.realizedGains = L.realizedGains ++ [{ r with isSimulation := false }]) := by
  simp only [addTransaction_sell_eq]
  by_cases hne : (L.holdings symbol).isEmpty = true
  · constructor
    · intro e
      simp only [calculateSale, processSell, mkTransaction, hne, if_true,
        Except.error.injEq]
    · intro r hr
      simp only [calculateSale, hne, if_true] at hr
      exact absurd hr (by simp)
  · have hne' := eq_false_of_ne_true hne
    by_cases hlt : ((L.holdings symbol).map (·.remainingQuantity)).sum < q
    · constructor
      · intro e
        simp only [calculateSale, processSell, mkTransaction, hne', Bool.false_eq_true,
          if_false, if_pos hlt, Except.error.injEq]
      · intro r hr
        simp only [calculateSale, hne', Bool.false_eq_true, if_false, if_pos hlt] at hr
        exact absurd hr (by simp)
    · set settle := calculateSettlementDate d with hsettle
      set out := consumeLots settle (L.holdings symbol) q with hout
      set rr : SaleResult :=
        { symbol := symbol, quantitySold := q, sellPrice := p, saleProceeds := q * p,
          totalCostBasis := out.2.2, capitalGain := q * p - out.2.2,
          lotsUsed := out.2.1, saleDate := settle, isSimulation := false } with hrr
      set LL : Ledger :=
        { L with
            holdings := fun s => if s = symbol
              then out.1.filter (fun l => l.remainingQuantity > 0) else L.holdings s
            realizedGains := L.realizedGains ++ [rr] } with hLL
      have hps : processSell L (mkTransaction L "SELL" symbol q p d) = .ok (LL, rr) := by
        simp only [processSell, mkTransaction, hne', Bool.false_eq_true, if_false, if_neg hlt]
      have hcs : calculateSale L symbol q p d = .ok { rr with isSimulation := true } := by
        simp only [calculateSale, hne', Bool.false_eq_true, if_false, if_neg hlt]
      constructor
      · intro e
        rw [hcs, hps]
        exact iff_of_false (by simp) (by simp)
      · intro r hr
        rw [hcs] at hr
        have hr' := (Except.ok.injEq _ _).mp hr.symm
        subst hr'
        refine ⟨rfl, LL, ?_, rfl, rfl⟩
        rw [hps]

theorem calculateSale_simulates_sell_witness :
    ∃ r, calculateSale fifoDemoLedger "A" 12 9 7 = .ok r ∧
      (r.isSimulation = true ∧
       ∃ L', addTransaction fifoDemoLedger "SELL" "A" 12 9 7 =
           .ok (L', some { r with isSimulation := false }) ∧
         L'.transactions = fifoDemoLedger.transactions ∧
         L'.realizedGains = fifoDemoLedger.realizedGains ++
           [{ r with isSimulation := false }]) := by
  have hr : calculateSale fifoDemoLedger "A" 12 9 7 = .ok
      { symbol := "A", quantitySold := 12, sellPrice := 9, saleProceeds := 108,
        totalCostBasis := 64, capitalGain := 44,
        lotsUsed := [⟨4, 10, 5, 50, 7⟩, ⟨11, 2, 7, 14, 0⟩],
        saleDate := 11, isSimulation := true } := by
    norm_num [calculateSale, fifoDemoLedger, consumeLots, jsMin, calculateSettlementDate,
      addBusinessDays, nextBusinessDay, isWeekend, dayOfWeek, mkUsage, holdingPeriodDays]
  set r : SaleResult :=
    { symbol := "A", quantitySold := 12, sellPrice := 9, saleProceeds := 108,
      totalCostBasis := 64, capitalGain := 44,
      lotsUsed := [⟨4, 10, 5, 50, 7⟩, ⟨11, 2, 7, 14, 0⟩],
      saleDate := 11, isSimulation := true } with hrdef
  exact ⟨r, hr, (calculateSale_simulates_sell fifoDemoLedger "A" 12 9 7).2 r hr⟩

/-- C5 (counterexample): a 20% bonus on a lot of 100 shares @ 10 leaves
`quantity` at 100 while `remainingQuantity` becomes 120 — the bonus
shares are not added to `quantity`, and `quantity × price` is not
conserved (100 × 25/3 ≠ 100 × 10). -/
theorem applyBonus_counterexample :
    ∃ l, applyBonusShares [⟨100, 10, 0, 100, .purchase⟩] (1/5) 1 = .ok [l] ∧
      l.remainingQuantity = 120 ∧ l.quantity = 100 ∧
      l.quantity ≠ l.remainingQuantity ∧
      l.quantity * l.price ≠ (100 : ℚ) * 10 := by
  have h : Rat.floor (20 : ℚ) = 20 := ratFloor_eval _ _ (by norm_num) (by norm_num)
  refine ⟨⟨100, 25/3, 0, 120, .purchase⟩, ?_, rfl, rfl, by norm_num, by norm_num⟩
  norm_num [applyBonusShares, eligibleShares, applyBonusToLot, h]

/-- C5 (amended): a successfully applied bonus adds
`floor(remainingQuantity × ratio)` to each eligible lot's
`remainingQuantity` only — `quantity` is left unchanged — and rescales
the price so that `remainingQuantity × price` is conserved exactly per
eligible lot; ineligible lots are untouched, so
`Σ(remainingQuantity × price)` over the queue is exactly conserved. -/
theorem applyBonus_conserves_remaining_basis (lots lots' : List Lot) (r : ℚ) (exDate : ℤ)
    (hpos : ∀ l ∈ lots, l.purchaseDate < exDate → 0 < l.remainingQuantity)
    (hok : applyBonusShares lots r exDate = .ok lots') :
    0 < r ∧ r ≤ 1 ∧
    lots' = lots.map (applyBonusToLot r exDate) ∧
    (∀ l ∈ lots, l.purchaseDate < exDate →
      (applyBonusToLot r exDate l).remainingQuantity =
        l.remainingQuantity + ((Rat.floor (l.remainingQuantity * r) : ℤ) : ℚ) ∧
      (applyBonusToLot r exDate l).quantity = l.quantity ∧
      (applyBonusToLot r exDate l).remainingQuantity * (applyBonusToLot r exDate l).price =
        l.remainingQuantity * l.price) ∧
    (∀ l ∈ lots, ¬ l.purchaseDate < exDate → applyBonusToLot r exDate l = l) ∧
    (lots'.map (fun l => l.remainingQuantity * l.price)).sum =
      (lots.map (fun l => l.remainingQuantity * l.price)).sum := by
  have hratio : ¬ (r ≤ 0 ∨ r > 1) := by
    intro hcon
    rw [applyBonusShares, if_pos hcon] at hok
    exact Except.noConfusion hok
  push_neg at hratio
  obtain ⟨h0, h1⟩ := hratio
  have hmap : lots' = lots.map (applyBonusToLot r exDate) := by
    rw [applyBonusShares, if_neg (by push_neg; exact ⟨h0, h1⟩)] at hok
    split_ifs at hok with h2 h3 h4
    all_goals
      first
        | exact Except.noConfusion hok
        | exact ((Except.ok.injEq _ _).mp hok).symm
  have heligible : ∀ l ∈ lots, l.purchaseDate < exDate →
      (applyBonusToLot r exDate l).remainingQuantity =
        l.remainingQuantity + ((Rat.floor (l.remainingQuantity * r) : ℤ) : ℚ) ∧
      (applyBonusToLot r exDate l).quantity = l.quantity ∧
      (applyBonusToLot r exDate l).remainingQuantity * (applyBonusToLot r exDate l).price =
        l.remainingQuantity * l.price := by
    intro l hl hel
    have hq0 : 0 < l.remainingQuantity := hpos l hl hel
    have hf : (0 : ℚ) ≤ ((Rat.floor (l.remainingQuantity * r) : ℤ) : ℚ) := by
      exact_mod_cast ratFloor_nonneg _ (le_of_lt (mul_pos hq0 h0))
    have hne : l.remainingQuantity + ((Rat.floor (l.remainingQuantity * r) : ℤ) : ℚ) ≠ 0 := by
      linarith
    refine ⟨?_, ?_, ?_⟩
    · rw [applyBonusToLot, if_pos hel]
    · rw [applyBonusToLot, if_pos hel]
    · rw [applyBonusToLot, if_pos hel]
      simp only
      rw [mul_comm, div_mul_cancel₀ _ hne]
  have huntouched : ∀ l ∈ lots, ¬ l.purchaseDate < exDate →
      applyBonusToLot r exDate l = l := by
    intro l _ hnel
    rw [applyBonusToLot, if_neg hnel]
  refine ⟨h0, h1, hmap, heligible, huntouched, ?_⟩
  rw [hmap, List.map_map]
  congr 1
  refine List.map_congr_left ?_
  intro l hl
  by_cases hel : l.purchaseDate < exDate
  · exact (heligible l hl hel).2.2
  · simp only [Function.comp_apply, huntouched l hl hel]

theorem applyBonus_conserves_remaining_basis_witness :
    (∀ l ∈ ([⟨100, 10, 0, 100, .purchase⟩] : List Lot),
      l.purchaseDate < 1 → 0 < l.remainingQuantity) ∧
    applyBonusShares [⟨100, 10, 0, 100, .purchase⟩] (1/5) 1 =
      .ok [⟨100, 25/3, 0, 120, .purchase⟩] ∧
    ((0 : ℚ) < 1/5 ∧ (1 : ℚ)/5 ≤ 1 ∧
     ([⟨100, 25/3, 0, 120, .purchase⟩] : List Lot) =
       ([⟨100, 10, 0, 100, .purchase⟩] : List Lot).map (applyBonusToLot (1/5) 1) ∧
     (∀ l ∈ ([⟨100, 10, 0, 100, .purchase⟩] : List Lot), l.purchaseDate < 1 →
       (applyBonusToLot (1/5) 1 l).remainingQuantity =
         l.remainingQuantity + ((Rat.floor (l.remainingQuantity * (1/5)) : ℤ) : ℚ) ∧
       (applyBonusToLot (1/5) 1 l).quantity = l.quantity ∧
       (applyBonusToLot (1/5) 1 l).remainingQuantity * (applyBonusToLot (1/5) 1 l).price =
         l.remainingQuantity * l.price) ∧
     (∀ l ∈ ([⟨100, 10, 0, 100, .purchase⟩] : List Lot), ¬ l.purchaseDate < 1 →
       applyBonusToLot (1/5) 1 l = l) ∧
     (([⟨100, 25/3, 0, 120, .purchase⟩] : List Lot).map
        (fun l => l.remainingQuantity * l.price)).sum =
       (([⟨100, 10, 0, 100, .purchase⟩] : List Lot).map
        (fun l => l.remainingQuantity * l.price)).sum) := by
  have hfl : Rat.floor (20 : ℚ) = 20 := ratFloor_eval _ _ (by norm_num) (by norm_num)
  have hpos : ∀ l ∈ ([⟨100, 10, 0, 100, .purchase⟩] : List Lot),
      l.purchaseDate < 1 → 0 < l.remainingQuantity := by
    intro l hl _
    simp only [List.mem_singleton] at hl
    subst hl
    norm_num
  have hok : applyBonusShares [⟨100, 10, 0, 100, .purchase⟩] (1/5) 1 =
      .ok [⟨100, 25/3, 0, 120, .purchase⟩] := by
    norm_num [applyBonusShares, eligibleShares, applyBonusToLot, hfl]
  exact ⟨hpos, hok,
    applyBonus_conserves_remaining_basis [⟨100, 10, 0, 100, .purchase⟩]
      [⟨100, 25/3, 0, 120, .purchase⟩] (1/5) 1 hpos hok⟩

/-- C6: the bonus reversal formula `floor(currentQty / (1 + ratio))`
fails to restore the pre-apply lot whenever `remainingQuantity × ratio`
was not an integer: applying a 15% bonus to a lot of 10 shares @ 100
yields 11 shares @ 1000/11, and reversing it yields 9 shares @ 1000/9 —
not the original 10 shares @ 100. -/
theorem reverseBonus_roundtrip_fails :
    applyBonusShares [⟨10, 100, 0, 10, .purchase⟩] (3/20) 1 =
      .ok [⟨10, 1000/11, 0, 11, .purchase⟩] ∧
    reverseBonusShares [⟨10, 1000/11, 0, 11, .purchase⟩] (3/20) 1 =
      [⟨10, 1000/9, 0, 9, .purchase⟩] ∧
    ([⟨10, 1000/9, 0, 9, .purchase⟩] : List Lot) ≠ [⟨10, 100, 0, 10, .purchase⟩] := by
  have h1 : Rat.floor ((3 : ℚ)/2) = 1 := ratFloor_eval _ _ (by norm_num) (by norm_num)
  have h2 : Rat.floor ((220 : ℚ)/23) = 9 := ratFloor_eval _ _ (by norm_num) (by norm_num)
  refine ⟨?_, ?_, ?_⟩
  · norm_num [applyBonusShares, eligibleShares, applyBonusToLot, h1]
  · norm_num [reverseBonusShares, reverseBonusToLot, h2]
  · intro h
    simp only [List.cons.injEq, Lot.mk.injEq] at h
    exact absurd h.1.2.1 (by norm_num)

/-- C7: a rights issue with positive parsed ratio (`n:m` → n/m or
decimal), positive issue price and nonzero pre-ex-date eligible shares
fails with a ratio-too-small error when
`floor(eligibleShares × ratio) = 0`, and otherwise appends exactly one
new lot at the tail with `quantity = remainingQuantity = rightsQty`,
`unitCost = issuePrice`, acquisition date the subscription date (or
ex-date + 30 days when absent), and a rights-issue origin marker. -/
theorem applyRightIssue_appends_single_lot (lots : List Lot) (ratio : RightRatioArg)
    (price : ℚ) (exDate : ℤ) (subscriptionDate : Option ℤ)
    (hr : 0 < parseRightRatio ratio) (hp : 0 < price) (hne : lots ≠ [])
    (helig : eligibleShares lots exDate ≠ 0) :
    (Rat.floor (eligibleShares lots exDate * parseRightRatio ratio) = 0 →
      applyRightIssue lots ratio price exDate subscriptionDate = .error .ratioTooSmall) ∧
    (Rat.floor (eligibleShares lots exDate * parseRightRatio ratio) ≠ 0 →
      applyRightIssue lots ratio price exDate subscriptionDate =
        .ok (lots ++
          [{ quantity :=
               ((Rat.floor (eligibleShares lots exDate * parseRightRatio ratio) : ℤ) : ℚ)
             price := price
             purchaseDate := subscriptionDate.getD (exDate + 30)
             remainingQuantity :=
               ((Rat.floor (eligibleShares lots exDate * parseRightRatio ratio) : ℤ) : ℚ)
             origin := .rightIssue }])) := by
  have hisEmpty : lots.isEmpty = false := by
    cases lots with
    | nil => exact absurd rfl hne
    | cons a t => rfl
  constructor
  · intro hfloor
    simp only [applyRightIssue, if_neg (not_le.mpr hr), if_neg (not_le.mpr hp), hisEmpty,
      Bool.false_eq_true, if_false, if_neg helig, if_pos hfloor]
  · intro hfloor
    simp only [applyRightIssue, if_neg (not_le.mpr hr), if_neg (not_le.mpr hp), hisEmpty,
      Bool.false_eq_true, if_false, if_neg helig, if_neg hfloor]

theorem applyRightIssue_appends_single_lot_witness :
    (0 : ℚ) < parseRightRatio (.colonSyntax 1 5) ∧ (0 : ℚ) < 80 ∧
    ([⟨100, 100, 0, 100, .purchase⟩] : List Lot) ≠ [] ∧
    eligibleShares [⟨100, 100, 0, 100, .purchase⟩] 1 ≠ 0 ∧
    ((Rat.floor (eligibleShares [⟨100, 100, 0, 100, .purchase⟩] 1 *
        parseRightRatio (.colonSyntax 1 5)) = 0 →
      applyRightIssue [⟨100, 100, 0, 100, .purchase⟩] (.colonSyntax 1 5) 80 1 none =
        .error .ratioTooSmall) ∧
     (Rat.floor (eligibleShares [⟨100, 100, 0, 100, .purchase⟩] 1 *
        parseRightRatio (.colonSyntax 1 5)) ≠ 0 →
      applyRightIssue [⟨100, 100, 0, 100, .purchase⟩] (.colonSyntax 1 5) 80 1 none =
        .ok ([⟨100, 100, 0, 100, .purchase⟩] ++
          [{ quantity := ((Rat.floor (eligibleShares [⟨100, 100, 0, 100, .purchase⟩] 1 *
               parseRightRatio (.colonSyntax 1 5)) : ℤ) : ℚ)
             price := 80
             purchaseDate := Option.getD none (1 + 30)
             remainingQuantity := ((Rat.floor (eligibleShares [⟨100, 100, 0, 100, .purchase⟩] 1 *
               parseRightRatio (.colonSyntax 1 5)) : ℤ) : ℚ)
             origin := .rightIssue }]))) :=
  ⟨by norm_num [parseRightRatio], by norm_num, by simp,
   by norm_num [eligibleShares],
   applyRightIssue_appends_single_lot [⟨100, 100, 0, 100, .purchase⟩] (.colonSyntax 1 5)
     80 1 none (by norm_num [parseRightRatio]) (by norm_num) (by simp)
     (by norm_num [eligibleShares])⟩

theorem addTransaction_buy_eq (L : Ledger) (symbol : String) (q p : ℚ) (d : ℤ) :
    addTransaction L "BUY" symbol q p d =
      .ok ({ processBuy L (mkTransaction L "BUY" symbol q p d) with
             transactions :=
               (processBuy L (mkTransaction L "BUY" symbol q p d)).transactions ++
                 [mkTransaction L "BUY" symbol q p d] }, none) := by
  simp [addTransaction]

/-- C9: `addTransaction` returns from the SELL branch before the
`transactions.push`, so a committed sell is never recorded: after a buy
of 10 and a sell of 4, the ledger holds 6 remaining shares and one
realized gain, yet the transactions list contains only the BUY — and
replaying that list through a fresh ledger reconstructs 10 remaining
shares, not the live ledger's 6. -/
theorem sell_not_recorded_replay_diverges :
    (stepTransaction (stepTransaction emptyLedger "BUY" "A" 10 5 0)
      "SELL" "A" 4 6 7).realizedGains.length = 1 ∧
    (stepTransaction (stepTransaction emptyLedger "BUY" "A" 10 5 0)
      "SELL" "A" 4 6 7).transactions.map (·.ttype) = ["BUY"] ∧
    (((stepTransaction (stepTransaction emptyLedger "BUY" "A" 10 5 0)
      "SELL" "A" 4 6 7).holdings "A").map (·.remainingQuantity)).sum = 6 ∧
    (((replayTransactions (stepTransaction (stepTransaction emptyLedger "BUY" "A" 10 5 0)
      "SELL" "A" 4 6 7).transactions).holdings "A").map (·.remainingQuantity)).sum = 10 := by
  norm_num [stepTransaction, addTransaction, processSell, processBuy, mkTransaction,
    emptyLedger, consumeLots, jsMin, calculateSettlementDate, addBusinessDays,
    nextBusinessDay, isWeekend, dayOfWeek, mkUsage, holdingPeriodDays,
    replayTransactions, List.foldl_cons, List.foldl_nil, sell_ne_buy]

/-- C10 (counterexample): the core ledger accepts a BUY with negative
quantity without any error: the lot is appended and the transaction
recorded, contradicting the claim that such input fails immediately
with a validation error and has no effect. -/
theorem addTransaction_accepts_nonpositive :
    addTransaction emptyLedger "BUY" "A" (-5) 10 0 =
      .ok (stepTransaction emptyLedger "BUY" "A" (-5) 10 0, none) ∧
    ((stepTransaction emptyLedger "BUY" "A" (-5) 10 0).holdings "A").map (·.quantity) =
      [-5] ∧
    (stepTransaction emptyLedger "BUY" "A" (-5) 10 0).transactions.length = 1 := by
  refine ⟨?_, ?_, ?_⟩ <;>
    norm_num [stepTransaction, addTransaction, processBuy, mkTransaction, emptyLedger]

/-- C10 (amended): the core `addTransaction` performs no quantity/price
validation — a BUY with any quantity and price succeeds — and the
rejection of non-positive quantity or price happens in the application
layer's transaction handler, which returns the ledger untouched without
invoking the core. -/
theorem validation_lives_in_app_layer (L : Ledger) (ttype symbol : String) (q p : ℚ)
    (d : ℤ) (h : q ≤ 0 ∨ p ≤ 0) :
    handleAddTransaction L ttype symbol q p d = (L, false) ∧
    ∃ L', addTransaction L "BUY" symbol q p d = .ok (L', none) := by
  constructor
  · rw [handleAddTransaction, if_pos (Or.inr h)]
  · exact ⟨_, addTransaction_buy_eq L symbol q p d⟩

theorem validation_lives_in_app_layer_witness :
    ((-5 : ℚ) ≤ 0 ∨ (10 : ℚ) ≤ 0) ∧
    (handleAddTransaction emptyLedger "BUY" "A" (-5) 10 0 = (emptyLedger, false) ∧
     ∃ L', addTransaction emptyLedger "BUY" "A" (-5) 10 0 = .ok (L', none)) :=
  ⟨Or.inl (by norm_num),
   validation_lives_in_app_layer emptyLedger "BUY" "A" (-5) 10 0 (Or.inl (by norm_num))⟩

end PSXTax